import Mathlib

/-!
Verification of the procurement-system backend core: category hierarchy,
purchase-order lifecycle, inventory ledger.  The definitions below are a
shallow embedding of the Python services and endpoints in
src/backend/app/services/{category,purchase_order,inventory}.py and
src/backend/app/api/v1/endpoints/{categories,purchase_orders}.py.
The relational store is modelled as a list of rows; each service operation is
a pure function from the store (plus request data) to a result and an updated
store; raised HTTP errors / ValueError become an explicit error value.
-/

namespace Procurement

/-- Error taxonomy of the API layer (spec section 7): each constructor
corresponds to one raise site in the embedded endpoints/services. -/
inductive ApiErr where
  | notFound
  | forbidden
  | nameExists
  | parentNotFound
  | circularReference
  | cannotUpdateStatus
  | inventoryNotFound
  deriving DecidableEq, Repr

/-! ## Category data model (app/models/category.py, app/schemas/category.py) -/

/-- A row of the category table: id, name, description, self-referencing
parent_id, materialized level and path, soft-delete flag. -/
structure Category where
  id : String
  name : String
  description : Option String := none
  parent_id : Option String := none
  level : Nat := 0
  path : String := ""
  is_active : Bool := true
  deriving DecidableEq, Repr

/-- CategoryCreate schema. -/
structure CategoryCreate where
  name : String
  description : Option String := none
  is_active : Bool := true
  parent_id : Option String := none
  deriving DecidableEq, Repr

/-- CategoryUpdate schema: every field optional; `none` models an absent or
null field of the patch (the service checks `is not None`). -/
structure CategoryUpdate where
  name : Option String := none
  description : Option String := none
  parent_id : Option String := none
  is_active : Option Bool := none
  deriving DecidableEq, Repr

/-- Python truthiness of an `Optional[str]`: `None` and `""` are falsy. -/
def strTruthy : Option String → Bool
  | none => false
  | some s => !(s == "")

/-- Python `a or b` on `Optional[str]` values. -/
def pyOr (a b : Option String) : Option String :=
  if strTruthy a then a else b

/-- CategoryService.get_category_by_id: first row whose id matches. -/
def get_category_by_id (store : List Category) (category_id : String) : Option Category :=
  store.find? (fun c => c.id == category_id)

/-- CategoryService.get_category_by_name: first row with the given name inside
the given parent (parent_id IS NULL when no parent is passed). -/
def get_category_by_name (store : List Category) (name : String)
    (parent_id : Option String) : Option Category :=
  store.find? (fun c =>
    c.name == name &&
      match parent_id with
      | some p => c.parent_id == some p
      | none => c.parent_id == none)

/-- The parent_id obtained by `select Category.parent_id where id == current`:
`none` both when the row is missing and when its parent_id is NULL, exactly
like `result.scalar()` in the service. -/
def parentOf (store : List Category) (category_id : String) : Option String :=
  (get_category_by_id store category_id).bind (fun c => c.parent_id)

/-- CategoryService.create_category.  The caller supplies the generated id.
Level and path are computed from the parent when `parent_id` is truthy and the
parent row exists; otherwise they fall back to 0 and the bare name — while the
stored parent_id is set from the input unconditionally, as in the source. -/
def create_category (store : List Category) (d : CategoryCreate) (newId : String) :
    Category × List Category :=
  let lp : Nat × String :=
    if strTruthy d.parent_id then
      match get_category_by_id store (d.parent_id.getD "") with
      | some parent => (parent.level + 1, parent.path ++ " / " ++ d.name)
      | none => (0, d.name)
    else (0, d.name)
  let cat : Category :=
    { id := newId, name := d.name, description := d.description,
      parent_id := d.parent_id, level := lp.1, path := lp.2,
      is_active := d.is_active }
  (cat, store ++ [cat])

/-- The `update_data` dict built by CategoryService.update_category: a field
is written only when present. -/
structure UpdateData where
  name : Option String := none
  description : Option String := none
  is_active : Option Bool := none
  parent_id : Option String := none
  level : Option Nat := none
  path : Option String := none
  deriving DecidableEq, Repr

/-- `if not update_data:` — the dict is empty. -/
def UpdateData.isEmptyDict (u : UpdateData) : Bool :=
  u.name.isNone && u.description.isNone && u.is_active.isNone &&
    u.parent_id.isNone && u.level.isNone && u.path.isNone

/-- Applying the `update(...).values(**update_data)` statement to one row. -/
def applyUpdateData (u : UpdateData) (c : Category) : Category :=
  { c with
    name := u.name.getD c.name
    description := match u.description with | some d => some d | none => c.description
    is_active := u.is_active.getD c.is_active
    parent_id := match u.parent_id with | some p => some p | none => c.parent_id
    level := u.level.getD c.level
    path := u.path.getD c.path }

/-- CategoryService.update_category.  Mirrors the source: build update_data
from the non-None patch fields; if name or parent_id is present, recompute
level and path — falling back to level 0 and the bare name whenever the patch
parent_id is not truthy or the parent row is missing, even if the stored
category still has a parent.  Returns the refreshed category and store, or
`none` when the category does not exist. -/
def update_category (store : List Category) (category_id : String)
    (d : CategoryUpdate) : Option (Category × List Category) :=
  match get_category_by_id store category_id with
  | none => none
  | some category =>
    let u0 : UpdateData :=
      { name := d.name, description := d.description,
        is_active := d.is_active, parent_id := d.parent_id }
    let u : UpdateData :=
      if d.parent_id.isSome || d.name.isSome then
        let new_name := match d.name with
          | some n => if n == "" then category.name else n
          | none => category.name
        let lp : Nat × String :=
          if strTruthy d.parent_id then
            match get_category_by_id store (d.parent_id.getD "") with
            | some parent => (parent.level + 1, parent.path ++ " / " ++ new_name)
            | none => (0, new_name)
          else (0, new_name)
        { u0 with level := some lp.1, path := some lp.2 }
      else u0
    if u.isEmptyDict then some (category, store)
    else
      let store2 := store.map (fun c => if c.id == category_id then applyUpdateData u c else c)
      match get_category_by_id store2 category_id with
      | some refreshed => some (refreshed, store2)
      | none => none

/-- The while loop of CategoryService.would_create_circular_reference, walking
the parent chain from `current` with a visited set.  `fuel` bounds the number
of loop iterations the model is willing to execute; `none` means the bound was
hit (the termination theorem shows `store.length + 1` always suffices, so the
bound is never hit at the call site below).  The order of the stopping tests
matches the source: falsy current id, already-visited id, then the target
comparison inside the body. -/
def ancestorWalk (store : List Category) (category_id : String) :
    Nat → Option String → List String → Option Bool
  | _, none, _ => some false
  | fuel, some current, visited =>
    if current == "" then some false
    else if current ∈ visited then some false
    else
      match fuel with
      | 0 => none
      | fuel' + 1 =>
        if current == category_id then some true
        else ancestorWalk store category_id fuel' (parentOf store current) (current :: visited)

/-- CategoryService.would_create_circular_reference.  The default `true` is
dead code: `ancestorWalk_isSome_of_lt` below shows the walk always finishes
within `store.length + 1` iterations. -/
def would_create_circular_reference (store : List Category)
    (category_id new_parent_id : String) : Bool :=
  (ancestorWalk store category_id (store.length + 1) (some new_parent_id) []).getD true

/-- Ids of the direct children of `category_id`
(get_child_categories with active_only=False; the ORDER BY name of the source
only permutes siblings and is not modelled). -/
def childIds (store : List Category) (category_id : String) : List String :=
  (store.filter (fun c => c.parent_id == some category_id)).map (fun c => c.id)

/-- `update(Category).where(id == cid).values(is_active=False)`. -/
def setInactive (store : List Category) (category_id : String) : List Category :=
  store.map (fun c => if c.id == category_id then { c with is_active := false } else c)

/-- CategoryService._deactivate_category_tree, generalized to a work list of
roots processed left to right: for each root, first recursively deactivate its
children, then mark the root inactive.  Besides the updated store it returns
the trace of ids in the order their UPDATE statements run, so the post-order
of the deactivations can be stated.  `fuel` bounds the recursion depth; the
theorems below show any bound above the tree height suffices. -/
def deactivateForest (fuel : Nat) (store : List Category) (roots : List String) :
    Option (List Category × List String) :=
  match roots with
  | [] => some (store, [])
  | c :: cs =>
    match fuel with
    | 0 => none
    | fuel' + 1 =>
      match deactivateForest fuel' store (childIds store c) with
      | none => none
      | some (s1, tr1) =>
        match deactivateForest (fuel' + 1) (setInactive s1 c) cs with
        | none => none
        | some (s2, tr2) => some (s2, tr1 ++ c :: tr2)
  termination_by (fuel, roots.length)

/-- CategoryService.delete_category: soft delete; with force, first deactivate
the whole subtree, then mark the target inactive (again).  Returns the flag
the service returns, the updated store, and the deactivation trace. -/
def delete_category (fuel : Nat) (store : List Category) (category_id : String)
    (force : Bool) : Option (Bool × List Category × List String) :=
  match get_category_by_id store category_id with
  | none => some (false, store, [])
  | some _ =>
    if force then
      match deactivateForest fuel store [category_id] with
      | none => none
      | some (s1, tr) => some (true, setInactive s1 category_id, tr ++ [category_id])
    else
      some (true, setInactive store category_id, [category_id])

/-- The update_category endpoint of api/v1/endpoints/categories.py:
permission check, 404 on missing category, duplicate-name check, parent
validation with the circular-reference guard, then the service update.
An error result models a raised HTTPException: the transaction never reaches
a write, so the caller keeps the original store. -/
def update_category_endpoint (canManage : Bool) (store : List Category)
    (category_id : String) (d : CategoryUpdate) : Except ApiErr (List Category) :=
  if !canManage then .error .forbidden
  else
    match get_category_by_id store category_id with
    | none => .error .notFound
    | some category =>
      let nameConflict : Bool :=
        if strTruthy d.name && !(d.name == some category.name) then
          match get_category_by_name store (d.name.getD "")
              (pyOr d.parent_id category.parent_id) with
          | some existing => !(existing.id == category_id)
          | none => false
        else false
      if nameConflict then .error .nameExists
      else if strTruthy d.parent_id && !(d.parent_id == category.parent_id) then
        match get_category_by_id store (d.parent_id.getD "") with
        | none => .error .parentNotFound
        | some _ =>
          if would_create_circular_reference store category_id (d.parent_id.getD "") then
            .error .circularReference
          else
            match update_category store category_id d with
            | some (_, store2) => .ok store2
            | none => .error .notFound
      else
        match update_category store category_id d with
        | some (_, store2) => .ok store2
        | none => .error .notFound

/-- The store the caller observes after running the endpoint: the updated
store on success, the unchanged store when an HTTPException aborted the
transaction. -/
def storeAfterUpdate (store : List Category) (r : Except ApiErr (List Category)) :
    List Category :=
  match r with
  | .ok s => s
  | .error _ => store

/-! ## Purchase orders (app/services/purchase_order.py,
app/schemas/purchase_order.py, app/api/v1/endpoints/purchase_orders.py).
Decimal amounts are modelled as rationals, datetimes as abstract ticks. -/

/-- PurchaseOrderItemCreate schema: note it has no total_price field. -/
structure PurchaseOrderItemCreate where
  product_id : Nat
  quantity : Int
  unit_price : Rat
  notes : Option String := none
  deriving DecidableEq, Repr

/-- PurchaseOrderCreate schema. -/
structure PurchaseOrderCreate where
  supplier_id : Nat
  expected_delivery_date : Nat
  notes : Option String := none
  status : String := "draft"
  items : List PurchaseOrderItemCreate
  deriving DecidableEq, Repr

/-- A purchase_order_item row.  total_price is a NOT NULL column with no
default that create_purchase_order never assigns, hence an Option that the
embedded create leaves at none. -/
structure PurchaseOrderItem where
  id : Nat
  purchase_order_id : Nat
  product_id : Nat
  quantity : Int
  unit_price : Rat
  total_price : Option Rat := none
  received_quantity : Int := 0
  notes : Option String := none
  deriving DecidableEq, Repr

/-- A purchase_order row; total_amount has column default 0. -/
structure PurchaseOrder where
  id : Nat
  supplier_id : Nat
  expected_delivery_date : Nat
  notes : Option String := none
  status : String := "draft"
  total_amount : Rat := 0
  created_by : Nat
  deriving DecidableEq, Repr

/-- PurchaseOrderService.create_purchase_order: persist the order from the
dumped schema fields (total_amount keeps its column default) and one row per
item (total_price is never computed). -/
def create_purchase_order (d : PurchaseOrderCreate) (created_by : Nat)
    (newId : Nat) : PurchaseOrder × List PurchaseOrderItem :=
  let po : PurchaseOrder :=
    { id := newId, supplier_id := d.supplier_id,
      expected_delivery_date := d.expected_delivery_date, notes := d.notes,
      status := d.status, total_amount := 0, created_by := created_by }
  let items := d.items.map (fun it =>
    ({ id := 0, purchase_order_id := newId, product_id := it.product_id,
       quantity := it.quantity, unit_price := it.unit_price,
       total_price := none, received_quantity := 0,
       notes := it.notes } : PurchaseOrderItem))
  (po, items)

/-- PurchaseOrderUpdate payload with exclude_unset semantics: `none` models a
field absent from the request. -/
structure PurchaseOrderUpdate where
  supplier_id : Option Nat := none
  expected_delivery_date : Option Nat := none
  notes : Option String := none
  status : Option String := none
  deriving DecidableEq, Repr

/-- `update(PurchaseOrder).values(**po_in.model_dump(exclude_unset=True))`
applied to one row. -/
def applyPOUpdate (d : PurchaseOrderUpdate) (po : PurchaseOrder) : PurchaseOrder :=
  { po with
    supplier_id := d.supplier_id.getD po.supplier_id
    expected_delivery_date := d.expected_delivery_date.getD po.expected_delivery_date
    notes := match d.notes with | some n => some n | none => po.notes
    status := d.status.getD po.status }

/-- PurchaseOrderService.update_purchase_order (the write itself). -/
def update_purchase_order (store : List PurchaseOrder) (po_id : Nat)
    (d : PurchaseOrderUpdate) : List PurchaseOrder :=
  store.map (fun po => if po.id == po_id then applyPOUpdate d po else po)

/-- The update_purchase_order endpoint: 404 when the order is missing, then
the editability guard `status not in ["draft", "pending"]` (note the literal
"pending": the status enum of the model has pending_approval instead), then
the service update. -/
def update_purchase_order_endpoint (store : List PurchaseOrder) (po_id : Nat)
    (d : PurchaseOrderUpdate) : Except ApiErr (List PurchaseOrder) :=
  match store.find? (fun po => po.id == po_id) with
  | none => .error .notFound
  | some po =>
    if !(po.status == "draft" || po.status == "pending") then
      .error .cannotUpdateStatus
    else
      .ok (update_purchase_order store po_id d)

/-- The store the caller observes after the purchase-order update endpoint. -/
def poStoreAfterUpdate (store : List PurchaseOrder)
    (r : Except ApiErr (List PurchaseOrder)) : List PurchaseOrder :=
  match r with
  | .ok s => s
  | .error _ => store

/-! ## Inventory ledger (app/services/inventory.py, app/schemas/inventory.py).
The service reads and writes the `quantity` column of its inventory row and
keys the sign of an adjustment off the schema string `adjustment_type`
("addition" adds, anything else subtracts). -/

/-- An inventory row as used by the inventory service. -/
structure Inventory where
  id : Nat
  product_id : Nat
  location_id : Nat
  quantity : Int
  minimum_quantity : Int := 0
  maximum_quantity : Option Int := none
  notes : Option String := none
  last_restock_date : Option Nat := none
  last_count_date : Option Nat := none
  deriving DecidableEq, Repr

/-- InventoryAdjustmentCreate schema (adjustment_type is the free string
documented as "addition" or "subtraction"; quantity is conint(gt=0)). -/
structure InventoryAdjustmentCreate where
  inventory_id : Nat
  adjustment_type : String
  quantity : Int
  reason : String := ""
  reference_number : Option String := none
  notes : Option String := none
  deriving DecidableEq, Repr

/-- A persisted inventory_adjustment row. -/
structure InventoryAdjustment where
  inventory_id : Nat
  adjustment_type : String
  quantity : Int
  reason : String
  reference_number : Option String
  notes : Option String
  created_by : Nat
  previous_quantity : Int
  deriving DecidableEq, Repr

/-- InventoryCount schema (the create payload of a physical count). -/
structure InventoryCountCreate where
  inventory_id : Nat
  counted_quantity : Int
  notes : Option String := none
  deriving DecidableEq, Repr

/-- A persisted inventory_count row. -/
structure InventoryCount where
  inventory_id : Nat
  counted_quantity : Int
  notes : Option String
  created_by : Nat
  system_quantity : Int
  difference : Int
  deriving DecidableEq, Repr

/-- The inventory tables touched by the service. -/
structure InventoryDB where
  inventories : List Inventory
  adjustments : List InventoryAdjustment
  counts : List InventoryCount
  deriving DecidableEq, Repr

/-- InventoryService.get_inventory. -/
def get_inventory (db : InventoryDB) (inventory_id : Nat) : Option Inventory :=
  db.inventories.find? (fun i => i.id == inventory_id)

/-- InventoryService.create_inventory_adjustment: look the row up (ValueError
when missing), persist the adjustment with the previous quantity, then write
quantity + q when adjustment_type is the literal "addition" and quantity − q
for every other type string — with no lower-bound check of any kind. -/
def create_inventory_adjustment (db : InventoryDB) (d : InventoryAdjustmentCreate)
    (created_by : Nat) : Except ApiErr (InventoryAdjustment × InventoryDB) :=
  match get_inventory db d.inventory_id with
  | none => .error .inventoryNotFound
  | some inventory =>
    let adjustment : InventoryAdjustment :=
      { inventory_id := d.inventory_id, adjustment_type := d.adjustment_type,
        quantity := d.quantity, reason := d.reason,
        reference_number := d.reference_number, notes := d.notes,
        created_by := created_by, previous_quantity := inventory.quantity }
    let new_quantity : Int :=
      if d.adjustment_type == "addition" then inventory.quantity + d.quantity
      else inventory.quantity - d.quantity
    let db2 : InventoryDB :=
      { db with
        adjustments := db.adjustments ++ [adjustment]
        inventories := db.inventories.map (fun i =>
          if i.id == inventory.id then { i with quantity := new_quantity } else i) }
    .ok (adjustment, db2)

/-- InventoryService.create_inventory_count: always persist a count row with
the system quantity and the difference; update the inventory quantity and
last_count_date only when the difference is non-zero. -/
def create_inventory_count (db : InventoryDB) (d : InventoryCountCreate)
    (created_by : Nat) (now : Nat) : Except ApiErr (InventoryCount × InventoryDB) :=
  match get_inventory db d.inventory_id with
  | none => .error .inventoryNotFound
  | some inventory =>
    let count : InventoryCount :=
      { inventory_id := d.inventory_id, counted_quantity := d.counted_quantity,
        notes := d.notes, created_by := created_by,
        system_quantity := inventory.quantity,
        difference := d.counted_quantity - inventory.quantity }
    let db2 : InventoryDB := { db with counts := db.counts ++ [count] }
    let db3 : InventoryDB :=
      if count.difference ≠ 0 then
        { db2 with inventories := db2.inventories.map (fun i =>
            if i.id == inventory.id then
              { i with quantity := d.counted_quantity, last_count_date := some now }
            else i) }
      else db2
    .ok (count, db3)

/-! ## Derived notions used to state the hierarchy properties -/

/-- Bool test that a list of ids is a chain of parent links in the store:
each element's parent_id (as read by the service) is the next element.
A one-element chain `[c]` is the degenerate "c itself" case. -/
def isAncestorPath (store : List Category) : List String → Bool
  | [] => false
  | [_] => true
  | a :: b :: rest => parentOf store a == some b && isAncestorPath store (b :: rest)

/-- `Desc store d a`: a is reachable from d by following parent links upward
(reflexively), i.e. d is a or a descendant of a. -/
inductive Desc (store : List Category) : String → String → Prop where
  | refl (x : String) : Desc store x x
  | step {x y z : String} : parentOf store x = some y → Desc store y z → Desc store x z

/-- Decidable form of "rank strictly decreases from every child to its
parent": a ranking function witnessing that the parent pointers of the store
are acyclic. -/
def rankOkB (rank : String → Nat) (store : List Category) : Bool :=
  store.all (fun row =>
    match row.parent_id with
    | some q => decide (rank row.id < rank q)
    | none => true)

/-- Every row carrying the id is inactive. -/
def inactiveIn (store : List Category) (d : String) : Prop :=
  ∀ row ∈ store, row.id = d → row.is_active = false

/-- The id/parent structure of the store; deactivation never changes it. -/
def shape (store : List Category) : List (String × Option String) :=
  store.map (fun c => (c.id, c.parent_id))

/-! ## Concrete fixtures for the evaluated scenarios -/

/-- A root category, as create_category builds it. -/
def exCatA : Category := { id := "A", name := "A", path := "A" }

/-- A child of exCatA. -/
def exCatB : Category :=
  { id := "B", name := "B", parent_id := some "A", level := 1, path := "A / B" }

/-- A child of exCatB. -/
def exCatC : Category :=
  { id := "C", name := "C", parent_id := some "B", level := 2, path := "A / B / C" }

/-- A three-level chain A → B → C. -/
def exStore : List Category := [exCatA, exCatB, exCatC]

/-- A ranking function witnessing that exStore is acyclic. -/
def exRank : String → Nat :=
  fun s => if s = "A" then 2 else if s = "B" then 1 else 0

/-- One inventory row holding 10 units. -/
def exInvDB : InventoryDB :=
  { inventories := [{ id := 1, product_id := 1, location_id := 1, quantity := 10 }],
    adjustments := [], counts := [] }

/-- A one-order store with the given status. -/
def exPOStore (st : String) : List PurchaseOrder :=
  [{ id := 1, supplier_id := 1, expected_delivery_date := 0, status := st,
     created_by := 2 }]

/-- exCatB with a patched description. -/
def exCatBNote : Category := { exCatB with description := some "note" }

/-- The single inventory row of exInvDB. -/
def exInv10 : Inventory := { id := 1, product_id := 1, location_id := 1, quantity := 10 }

/-- A damage adjustment of 3 units. -/
def exAdjDamage : InventoryAdjustmentCreate :=
  { inventory_id := 1, adjustment_type := "damage", quantity := 3, reason := "damage" }

/-- The description-only patch used by the update witnesses. -/
def exPatchDesc : CategoryUpdate := { description := some "note" }

end Procurement

namespace Procurement

/-! ## Helper lemmas -/

/-- Looking a row up after an id-preserving per-row update of that id. -/
lemma get_category_by_id_map_update (store : List Category) (cid : String)
    (g : Category → Category) (hg : ∀ c, (g c).id = c.id) :
    get_category_by_id (store.map (fun c => if c.id == cid then g c else c)) cid
      = (get_category_by_id store cid).map g := by
  induction store with
  | nil => rfl
  | cons a l ih =>
    simp only [get_category_by_id, List.map_cons] at *
    cases h : (a.id == cid) with
    | true =>
      rw [if_pos rfl]
      have hga : ((g a).id == cid) = true := by rw [hg a]; exact h
      simp only [List.find?_cons, hga, h, Option.map_some']
    | false =>
      rw [if_neg Bool.false_ne_true]
      simp only [List.find?_cons, h]
      exact ih

/-- applyUpdateData never touches the id column. -/
lemma applyUpdateData_id (u : UpdateData) (c : Category) :
    (applyUpdateData u c).id = c.id := rfl

/-! ## C10 -/

/-- C10: in CategoryService.update_category every patch field that is absent
or None is ignored — the corresponding stored field of the refreshed category
is unchanged.  In particular a patch with parent_id None never clears the
stored parent_id, so a category with a parent can never be re-parented to
become a root through this operation.  (The derived level and path columns
are not patch fields and may still change when only the name is patched.) -/
theorem category_update_none_fields_ignored
    (store : List Category) (category_id : String) (d : CategoryUpdate)
    (cat res : Category) (store2 : List Category)
    (hfind : get_category_by_id store category_id = some cat)
    (hup : update_category store category_id d = some (res, store2)) :
    (d.name = none → res.name = cat.name) ∧
    (d.description = none → res.description = cat.description) ∧
    (d.is_active = none → res.is_active = cat.is_active) ∧
    (d.parent_id = none → res.parent_id = cat.parent_id) := by
  simp only [update_category, hfind] at hup
  by_cases hb : (d.parent_id.isSome || d.name.isSome) = true
  · rw [if_pos hb] at hup
    rw [if_neg (by simp [UpdateData.isEmptyDict])] at hup
    rw [get_category_by_id_map_update store category_id _
      (fun c => applyUpdateData_id _ c)] at hup
    rw [hfind] at hup
    simp only [Option.map_some'] at hup
    have h := Option.some.inj hup
    rw [Prod.mk.injEq] at h
    rw [← h.1]
    refine ⟨?_, ?_, ?_, ?_⟩ <;> intro h0 <;> simp [applyUpdateData, h0]
  · rw [if_neg hb] at hup
    by_cases he : UpdateData.isEmptyDict
        { name := d.name, description := d.description,
          is_active := d.is_active, parent_id := d.parent_id } = true
    · rw [if_pos he] at hup
      have h := Option.some.inj hup
      rw [Prod.mk.injEq] at h
      rw [← h.1]
      exact ⟨fun _ => rfl, fun _ => rfl, fun _ => rfl, fun _ => rfl⟩
    · rw [if_neg he] at hup
      rw [get_category_by_id_map_update store category_id _
        (fun c => applyUpdateData_id _ c)] at hup
      rw [hfind] at hup
      simp only [Option.map_some'] at hup
      have h := Option.some.inj hup
      rw [Prod.mk.injEq] at h
      rw [← h.1]
      refine ⟨?_, ?_, ?_, ?_⟩ <;> intro h0 <;> simp [applyUpdateData, h0]

/-- Concrete run of category_update_none_fields_ignored: patching only the
description of the child exCatB leaves its name, active flag and parent
untouched. -/
theorem category_update_none_fields_ignored_witness :
    get_category_by_id [exCatB] "B" = some exCatB ∧
    update_category [exCatB] "B" exPatchDesc = some (exCatBNote, [exCatBNote]) ∧
    ((exPatchDesc.name = none → exCatBNote.name = exCatB.name) ∧
      (exPatchDesc.description = none → exCatBNote.description = exCatB.description) ∧
      (exPatchDesc.is_active = none → exCatBNote.is_active = exCatB.is_active) ∧
      (exPatchDesc.parent_id = none → exCatBNote.parent_id = exCatB.parent_id)) :=
  ⟨rfl, by decide,
    category_update_none_fields_ignored [exCatB] "B" exPatchDesc exCatB exCatBNote
      [exCatBNote] rfl (by decide)⟩

/-- A store row found by id gives membership of the id in the id column. -/
lemma mem_ids_of_find (store : List Category) (x : String) (cat : Category)
    (h : get_category_by_id store x = some cat) :
    x ∈ store.map (fun c => c.id) := by
  have hmem := List.mem_of_find?_eq_some h
  have hbeq := List.find?_some h
  simp only [beq_iff_eq] at hbeq
  exact hbeq ▸ List.mem_map_of_mem _ hmem

/-- An id that is not in the id column has no parent pointer to read. -/
lemma parentOf_eq_none_of_not_mem (store : List Category) (x : String)
    (h : x ∉ store.map (fun c => c.id)) : parentOf store x = none := by
  unfold parentOf get_category_by_id
  rw [List.find?_eq_none.mpr ?_]
  · rfl
  · intro cat hcat hbeq
    exact h (beq_iff_eq.mp hbeq ▸ List.mem_map_of_mem _ hcat)

/-- The ancestor walk finishes whenever the fuel exceeds the number of store
ids outside the visited set: each executed iteration either stops or moves a
fresh store id into the visited set. -/
lemma ancestorWalk_isSome_of_lt (store : List Category) (category_id : String) :
    ∀ (fuel : Nat) (current : Option String) (visited : List String),
      ((store.map (fun c => c.id)).filter (fun k => !(visited.contains k))).length < fuel →
      (ancestorWalk store category_id fuel current visited).isSome := by
  intro fuel
  induction fuel with
  | zero => intro current visited h; exact absurd h (Nat.not_lt_zero _)
  | succ n ih =>
    intro current visited h
    match current with
    | none => rfl
    | some c =>
      rw [ancestorWalk]
      by_cases h1 : (c == "") = true
      · rw [if_pos h1]; rfl
      · rw [if_neg h1]
        by_cases h2 : c ∈ visited
        · rw [if_pos h2]; rfl
        · rw [if_neg h2]
          by_cases h3 : (c == category_id) = true
          · rw [if_pos h3]; rfl
          · rw [if_neg h3]
            by_cases hid : c ∈ store.map (fun cc => cc.id)
            · apply ih
              have hstep :
                  ((store.map (fun cc => cc.id)).filter
                      (fun k => !((c :: visited).contains k))).length <
                    ((store.map (fun cc => cc.id)).filter
                      (fun k => !(visited.contains k))).length := by
                have hcongr :
                    (store.map (fun cc => cc.id)).filter
                        (fun k => !((c :: visited).contains k)) =
                      ((store.map (fun cc => cc.id)).filter
                        (fun k => !(visited.contains k))).filter (fun k => !(k == c)) := by
                  rw [List.filter_filter]
                  apply List.filter_congr
                  intro x _
                  show (!((c :: visited).contains x)) = (!(x == c) && !(visited.contains x))
                  rw [List.contains_cons, Bool.not_or]
                rw [hcongr]
                apply List.length_filter_lt_length_iff_exists.mpr
                refine ⟨c, ?_, by simp⟩
                rw [List.mem_filter]
                refine ⟨hid, ?_⟩
                simp only [Bool.not_eq_true']
                exact (Bool.not_eq_true _).mp (fun hcon => h2 (List.elem_iff.mp hcon))
              exact Nat.lt_of_lt_of_le hstep (Nat.lt_succ_iff.mp h)
            · rw [parentOf_eq_none_of_not_mem store c hid]
              simp [ancestorWalk]

/-! ## C9 -/

/-- C9: for every finite category store — including malformed stores with
parent-pointer cycles or self-referencing rows — the circular-reference
check's ancestor walk terminates: thanks to the visited set, store.length + 1
iterations always suffice, so the fuelled model never returns none and
would_create_circular_reference never falls back to its default. -/
theorem circular_check_terminates (store : List Category)
    (category_id new_parent_id : String) :
    (ancestorWalk store category_id (store.length + 1) (some new_parent_id) []).isSome := by
  apply ancestorWalk_isSome_of_lt
  have hfilter : (store.map (fun c => c.id)).filter
      (fun k => !(([] : List String).contains k)) = store.map (fun c => c.id) := by
    apply List.filter_eq_self.mpr
    intro x _
    rfl
  rw [hfilter, List.length_map]
  exact Nat.lt_succ_self _

/-- Along a parent chain of pairwise-distinct nonempty ids, none of which was
visited yet, the ancestor walk reaches the chain's last element and reports
the cycle. -/
lemma ancestorWalk_path_true (store : List Category) (category_id : String) :
    ∀ (rest : List String) (p : String) (visited : List String) (fuel : Nat),
      isAncestorPath store (p :: rest) = true →
      (p :: rest).getLast? = some category_id →
      (p :: rest).Nodup →
      (∀ a ∈ p :: rest, a ≠ "") →
      (∀ a ∈ p :: rest, a ∉ visited) →
      (p :: rest).length ≤ fuel →
      ancestorWalk store category_id fuel (some p) visited = some true := by
  intro rest
  induction rest with
  | nil =>
    intro p visited fuel hpath hlast hnd hne hvis hlen
    have hp : p = category_id := by
      simpa using hlast
    obtain ⟨n, rfl⟩ : ∃ n, fuel = n + 1 := by
      cases fuel with
      | zero => exact absurd hlen (by simp)
      | succ n => exact ⟨n, rfl⟩
    rw [ancestorWalk]
    rw [if_neg (by simp [hne p (by simp)]), if_neg (by simp [hvis p (by simp)]),
      if_pos (by simp [hp])]
  | cons b rest2 ih =>
    intro p visited fuel hpath hlast hnd hne hvis hlen
    rw [isAncestorPath, Bool.and_eq_true] at hpath
    obtain ⟨hpar, hpath2⟩ := hpath
    have hcidmem : category_id ∈ b :: rest2 :=
      List.mem_of_mem_getLast? (by rw [← List.getLast?_cons_cons]; exact hlast)
    have hpnot : p ∉ b :: rest2 := (List.nodup_cons.mp hnd).1
    have hpne : p ≠ category_id := fun hpc => hpnot (hpc ▸ hcidmem)
    obtain ⟨n, rfl⟩ : ∃ n, fuel = n + 1 := by
      cases fuel with
      | zero => exact absurd hlen (by simp)
      | succ n => exact ⟨n, rfl⟩
    rw [ancestorWalk]
    rw [if_neg (by simp [hne p (by simp)]), if_neg (by simp [hvis p (by simp)]),
      if_neg (by simp [hpne]), beq_iff_eq.mp hpar]
    apply ih b (p :: visited) n hpath2
      (by rw [← List.getLast?_cons_cons]; exact hlast)
      (List.nodup_cons.mp hnd).2
      (fun a ha => hne a (List.mem_cons_of_mem _ ha))
      ?_ (by simpa using hlen)
    intro a ha
    rw [List.mem_cons]
    rintro (rfl | hin)
    · exact hpnot ha
    · exact hvis a (List.mem_cons_of_mem _ ha) hin

/-- Every element of a parent chain whose last element is a store id is
itself a store id. -/
lemma isAncestorPath_mem_ids (store : List Category) :
    ∀ (path : List String), isAncestorPath store path = true →
      ∀ a ∈ path, a ∈ store.map (fun c => c.id) ∨ path.getLast? = some a := by
  intro path
  induction path with
  | nil => intro _ a ha; exact absurd ha (List.not_mem_nil a)
  | cons p rest ih =>
    intro hpath a ha
    cases rest with
    | nil =>
      rw [List.mem_singleton] at ha
      exact Or.inr (by simp [ha])
    | cons b rest2 =>
      rw [isAncestorPath, Bool.and_eq_true] at hpath
      obtain ⟨hpar, hpath2⟩ := hpath
      rcases List.mem_cons.mp ha with rfl | hin
      · left
        unfold parentOf at hpar
        rw [beq_iff_eq] at hpar
        cases hfind : get_category_by_id store a with
        | none => rw [hfind] at hpar; exact absurd hpar (by simp)
        | some cat => exact mem_ids_of_find store a cat hfind
      · rcases ih hpath2 a hin with h | h
        · exact Or.inl h
        · exact Or.inr (by rw [List.getLast?_cons_cons]; exact h)

/-- A duplicate-free list of store ids is no longer than the store. -/
lemma nodup_ids_length_le (path : List String) (store : List Category)
    (hnd : path.Nodup) (hsub : ∀ a ∈ path, a ∈ store.map (fun c => c.id)) :
    path.length ≤ store.length := by
  classical
  have h1 : path.toFinset.card = path.length := List.toFinset_card_of_nodup hnd
  have h2 : path.toFinset ⊆ (store.map (fun c => c.id)).toFinset := by
    intro x hx
    rw [List.mem_toFinset] at hx ⊢
    exact hsub x hx
  calc path.length = path.toFinset.card := h1.symm
    _ ≤ (store.map (fun c => c.id)).toFinset.card := Finset.card_le_card h2
    _ ≤ (store.map (fun c => c.id)).length := List.toFinset_card_le _
    _ = store.length := List.length_map _ _

/-! ## C1 -/

/-- C1: re-parenting a category c onto p, where p is c itself or a descendant
of c — witnessed by the parent chain `p :: rest` that runs upward from p and
ends at c, duplicate-free as in any acyclic store — is rejected by the update
endpoint with the circular-reference error, and the store (hence c's
parent_id) is left unchanged.  The hypothesis `cat.parent_id ≠ some p` also
follows from acyclicity: c's current parent cannot simultaneously be a
descendant of c. -/
theorem category_reparent_to_descendant_rejected
    (store : List Category) (c p : String) (rest : List String) (cat : Category)
    (hpath : isAncestorPath store (p :: rest) = true)
    (hlast : (p :: rest).getLast? = some c)
    (hnd : (p :: rest).Nodup)
    (hne : ∀ a ∈ p :: rest, a ≠ "")
    (hc : get_category_by_id store c = some cat)
    (hnc : cat.parent_id ≠ some p) :
    update_category_endpoint true store c { parent_id := some p } =
      .error .circularReference ∧
    storeAfterUpdate store
      (update_category_endpoint true store c { parent_id := some p }) = store := by
  have hsub : ∀ a ∈ p :: rest, a ∈ store.map (fun cc => cc.id) := by
    intro a ha
    rcases isAncestorPath_mem_ids store (p :: rest) hpath a ha with h | h
    · exact h
    · have hac : a = c := by
        rw [h] at hlast
        exact Option.some.inj hlast
      exact hac ▸ mem_ids_of_find store c cat hc
  have hlen : (p :: rest).length ≤ store.length + 1 :=
    le_trans (nodup_ids_length_le _ store hnd hsub) (Nat.le_succ _)
  have hwalk : ancestorWalk store c (store.length + 1) (some p) [] = some true :=
    ancestorWalk_path_true store c rest p [] (store.length + 1) hpath hlast hnd hne
      (fun a _ => List.not_mem_nil a) hlen
  have hcirc : would_create_circular_reference store c p = true := by
    rw [would_create_circular_reference, hwalk]
    rfl
  have hne_p : (p == "") = false :=
    beq_eq_false_iff_ne.mpr (hne p (by simp))
  have hbeqpc : (some p == cat.parent_id) = false :=
    beq_eq_false_iff_ne.mpr (fun hcon => hnc hcon.symm)
  obtain ⟨rowp, hrowp⟩ : ∃ rowp, get_category_by_id store p = some rowp := by
    have hp_ids : p ∈ store.map (fun cc => cc.id) := hsub p (by simp)
    cases hfind : get_category_by_id store p with
    | some r => exact ⟨r, rfl⟩
    | none =>
      exfalso
      rw [get_category_by_id, List.find?_eq_none] at hfind
      obtain ⟨row, hrow, hrowid⟩ := List.mem_map.mp hp_ids
      exact hfind row hrow (by simp [beq_iff_eq, hrowid])
  have hmain : update_category_endpoint true store c { parent_id := some p } =
      .error .circularReference := by
    simp only [update_category_endpoint, hc, strTruthy, Bool.not_true, Bool.false_and,
      Bool.not_false, Bool.true_and, hne_p, hbeqpc, Option.getD_some, hrowp, hcirc,
      if_true, if_false, Bool.false_eq_true, ite_false, ite_true]
  exact ⟨hmain, by rw [hmain]; rfl⟩

/-- Concrete run of category_reparent_to_descendant_rejected: with root A and
child B, re-parenting A under its child B is rejected and the store is
untouched. -/
theorem category_reparent_to_descendant_rejected_witness :
    isAncestorPath [exCatA, exCatB] ["B", "A"] = true ∧
    (["B", "A"] : List String).getLast? = some "A" ∧
    (["B", "A"] : List String).Nodup ∧
    get_category_by_id [exCatA, exCatB] "A" = some exCatA ∧
    (update_category_endpoint true [exCatA, exCatB] "A" { parent_id := some "B" } =
        .error .circularReference ∧
      storeAfterUpdate [exCatA, exCatB]
        (update_category_endpoint true [exCatA, exCatB] "A" { parent_id := some "B" }) =
        [exCatA, exCatB]) :=
  ⟨by decide, by decide, by decide, rfl,
    category_reparent_to_descendant_rejected [exCatA, exCatB] "A" "B" ["A"] exCatA
      (by decide) (by decide) (by decide) (by decide) rfl (by decide)⟩

/-! ## C2 -/

/-- C2 fails on the code: renaming the child exCatB (parent exCatA at level 0,
path "A") without touching its parent resets its level to 0 and its path to
the bare new name while parent_id still points at "A" — the claimed invariant
level = parent.level + 1 and path = parent.path ++ separator ++ name is
broken by a name-only update.  This theorem evaluates update_category at that
failing input. -/
theorem category_rename_resets_level_and_path :
    (update_category [exCatA, exCatB] "B" { name := some "B2" }).map
        (fun r => (r.1.parent_id, r.1.level, r.1.path, r.1.name)) =
      some (some "A", 0, "B2", "B2") := by decide

/-! ## C3 -/

/-- C3 fails on the code: create_purchase_order never computes any total.
For the order of one item of quantity 10 at unit price 5 (so the sum of item
totals ought to be 50), the persisted order keeps total_amount at the column
default 0 and the persisted item row's NOT NULL total_price is never
assigned. -/
theorem po_create_total_amount_not_computed :
    (create_purchase_order
        { supplier_id := 1, expected_delivery_date := 0,
          items := [{ product_id := 1, quantity := 10, unit_price := 5 }] }
        7 1).1.total_amount = 0 ∧
    (create_purchase_order
        { supplier_id := 1, expected_delivery_date := 0,
          items := [{ product_id := 1, quantity := 10, unit_price := 5 }] }
        7 1).2.map (fun it => it.total_price) = [none] ∧
    (10 * 5 : Rat) ≠ 0 := by
  refine ⟨rfl, rfl, by norm_num⟩

/-! ## C4 -/

/-- C4 fails on the code: create_inventory_adjustment has no lower-bound
check.  Issuing 50 units from a row holding 10 does not fail — it succeeds
and drives the stored quantity to −40, a negative state the claim says can
never be produced. -/
theorem inventory_issue_overdraw_goes_negative :
    (create_inventory_adjustment exInvDB
        { inventory_id := 1, adjustment_type := "issue", quantity := 50,
          reason := "production issue" } 9).toOption.map
        (fun r => (get_inventory r.2 1).map (fun i => i.quantity)) =
      some (some (-40)) := by decide

/-! ## C7 -/

/-- C7, as stated, is false: the service adds only for the literal
adjustment_type "addition".  A "receipt" adjustment of 5 on a row holding 10
leaves 5 (it subtracts) instead of the claimed 15. -/
theorem inventory_receipt_subtracts_counterexample :
    (create_inventory_adjustment exInvDB
        { inventory_id := 1, adjustment_type := "receipt", quantity := 5,
          reason := "receipt" } 9).toOption.map
        (fun r => (get_inventory r.2 1).map (fun i => i.quantity)) =
      some (some 5) ∧ (5 : Int) ≠ 10 + 5 := by
  exact ⟨by decide, by decide⟩

/-- C7 amended: the signed delta of an adjustment is determined by comparing
adjustment_type with the literal string "addition" — quantity is added for
"addition" and subtracted for every other type string; in particular "issue"
and "damage" subtract, but so do "receipt" and "return". -/
theorem inventory_adjustment_sign_from_addition_literal
    (db : InventoryDB) (d : InventoryAdjustmentCreate) (created_by : Nat)
    (inv : Inventory) (h : get_inventory db d.inventory_id = some inv) :
    ∃ adj db2, create_inventory_adjustment db d created_by = .ok (adj, db2) ∧
      adj.previous_quantity = inv.quantity ∧
      ∀ i ∈ db2.inventories, i.id = inv.id →
        i.quantity = if d.adjustment_type = "addition"
          then inv.quantity + d.quantity else inv.quantity - d.quantity := by
  simp only [create_inventory_adjustment, h]
  refine ⟨_, _, rfl, rfl, ?_⟩
  intro i hi hid
  simp only [List.mem_map] at hi
  obtain ⟨j, hj, rfl⟩ := hi
  by_cases hcase : (j.id == inv.id) = true
  · rw [if_pos hcase]
    simp only [beq_iff_eq]
  · rw [if_neg hcase] at hid ⊢
    exact absurd (beq_iff_eq.mpr hid) hcase

/-- Concrete run of inventory_adjustment_sign_from_addition_literal on a
"damage" adjustment of 3 against the 10-unit row. -/
theorem inventory_adjustment_sign_witness :
    get_inventory exInvDB 1 = some exInv10 ∧
    ∃ adj db2,
      create_inventory_adjustment exInvDB exAdjDamage 9 = .ok (adj, db2) ∧
      adj.previous_quantity = exInv10.quantity ∧
      ∀ i ∈ db2.inventories, i.id = exInv10.id →
        i.quantity = if exAdjDamage.adjustment_type = "addition"
          then exInv10.quantity + exAdjDamage.quantity
          else exInv10.quantity - exAdjDamage.quantity :=
  ⟨rfl, inventory_adjustment_sign_from_addition_literal exInvDB exAdjDamage 9 exInv10 rfl⟩

/-! ## C8 -/

/-- C8: create_inventory_count always persists a count row carrying the
pre-count system quantity and the difference; when the counted quantity
equals the current quantity the difference is 0 and the inventory rows
(including quantity_on_hand and last_count_date) are completely unchanged. -/
theorem inventory_count_zero_difference_roundtrip
    (db : InventoryDB) (d : InventoryCountCreate) (created_by now : Nat)
    (inv : Inventory) (h : get_inventory db d.inventory_id = some inv) :
    ∃ count db2, create_inventory_count db d created_by now = .ok (count, db2) ∧
      count.system_quantity = inv.quantity ∧
      count.difference = d.counted_quantity - inv.quantity ∧
      db2.counts = db.counts ++ [count] ∧
      (d.counted_quantity = inv.quantity →
        count.difference = 0 ∧ db2.inventories = db.inventories) := by
  simp only [create_inventory_count, h]
  by_cases hz : d.counted_quantity - inv.quantity ≠ 0
  · rw [if_pos hz]
    refine ⟨_, _, rfl, rfl, rfl, rfl, ?_⟩
    intro he
    exact absurd (by rw [he]; exact sub_self _) hz
  · rw [if_neg hz]
    push_neg at hz
    exact ⟨_, _, rfl, rfl, rfl, rfl, fun _ => ⟨hz, rfl⟩⟩

/-- Concrete run of inventory_count_zero_difference_roundtrip: counting
exactly the 10 units on hand. -/
theorem inventory_count_zero_difference_roundtrip_witness :
    get_inventory exInvDB 1 =
      some { id := 1, product_id := 1, location_id := 1, quantity := 10 } ∧
    ∃ count db2,
      create_inventory_count exInvDB
          { inventory_id := 1, counted_quantity := 10 } 9 1000 = .ok (count, db2) ∧
      count.system_quantity = 10 ∧
      count.difference = (10 : Int) - 10 ∧
      db2.counts = exInvDB.counts ++ [count] ∧
      ((10 : Int) = 10 → count.difference = 0 ∧ db2.inventories = exInvDB.inventories) :=
  ⟨rfl,
    inventory_count_zero_difference_roundtrip exInvDB
      { inventory_id := 1, counted_quantity := 10 } 9 1000
      { id := 1, product_id := 1, location_id := 1, quantity := 10 } rfl⟩

/-! ## C5 -/

/-- C5, as stated, is false: it claims updates of orders in status
pending_approval are permitted, but the endpoint guard compares against the
literal strings "draft" and "pending", and "pending_approval" is neither —
the update of a pending_approval order is rejected. -/
theorem po_update_pending_approval_rejected_counterexample :
    update_purchase_order_endpoint (exPOStore "pending_approval") 1 {} =
      .error .cannotUpdateStatus := rfl

/-- C5 amended: the endpoint rejects the update with a Conflict signal and
leaves the store untouched exactly when the order status is neither "draft"
nor the literal "pending"; since the status enum of the model carries
pending_approval (not "pending"), every status other than draft — ordered or
later, cancelled, and also pending_approval — is rejected, and a draft order
is updated. -/
theorem po_update_guard
    (store : List PurchaseOrder) (po_id : Nat) (d : PurchaseOrderUpdate)
    (po : PurchaseOrder) (hfind : store.find? (fun p => p.id == po_id) = some po) :
    (¬ (po.status = "draft" ∨ po.status = "pending") →
      update_purchase_order_endpoint store po_id d = .error .cannotUpdateStatus ∧
      poStoreAfterUpdate store (update_purchase_order_endpoint store po_id d) = store) ∧
    ((po.status = "draft" ∨ po.status = "pending") →
      update_purchase_order_endpoint store po_id d =
        .ok (update_purchase_order store po_id d)) := by
  simp only [update_purchase_order_endpoint, hfind]
  constructor
  · intro hno
    have hb : (po.status == "draft" || po.status == "pending") = false := by
      rcases h1 : po.status == "draft" with _ | _
      · rcases h2 : po.status == "pending" with _ | _
        · rfl
        · exact absurd (Or.inr (beq_iff_eq.mp h2)) hno
      · exact absurd (Or.inl (beq_iff_eq.mp h1)) hno
    rw [hb]
    exact ⟨rfl, rfl⟩
  · intro hyes
    have hb : (po.status == "draft" || po.status == "pending") = true := by
      rcases hyes with h | h
      · rw [h]; rfl
      · rw [h]; rfl
    rw [hb]
    rfl

/-- Concrete run of po_update_guard: a draft order is updatable. -/
theorem po_update_guard_witness :
    (exPOStore "draft").find? (fun p => p.id == 1) =
      some { id := 1, supplier_id := 1, expected_delivery_date := 0,
             status := "draft", created_by := 2 } ∧
    update_purchase_order_endpoint (exPOStore "draft") 1 {} =
      .ok (update_purchase_order (exPOStore "draft") 1 {}) :=
  ⟨rfl,
    (po_update_guard (exPOStore "draft") 1 {}
        { id := 1, supplier_id := 1, expected_delivery_date := 0,
          status := "draft", created_by := 2 } rfl).2 (Or.inl rfl)⟩

/-! ## Helper lemmas for subtree deactivation (C6) -/

/-- Deactivating an id keeps the id/parent structure. -/
lemma shape_setInactive (s : List Category) (c : String) :
    shape (setInactive s c) = shape s := by
  unfold shape setInactive
  rw [List.map_map]
  apply List.map_congr_left
  intro x _
  by_cases h : (x.id == c) = true
  · simp only [Function.comp_apply, if_pos h]
  · simp only [Function.comp_apply, if_neg h]

/-- The child list only depends on the id/parent structure. -/
lemma childIds_eq_shape (s : List Category) (x : String) :
    childIds s x = ((shape s).filter (fun q => q.2 == some x)).map Prod.fst := by
  unfold childIds shape
  induction s with
  | nil => rfl
  | cons a l ih =>
    simp only [List.map_cons, List.filter_cons]
    by_cases h : (a.parent_id == some x) = true
    · rw [if_pos h, if_pos h]
      simp only [List.map_cons, ih]
    · rw [if_neg h, if_neg h]
      exact ih

/-- Stores of equal shape have the same child lists. -/
lemma childIds_congr {s1 s2 : List Category} (h : shape s1 = shape s2) (x : String) :
    childIds s1 x = childIds s2 x := by
  rw [childIds_eq_shape, childIds_eq_shape, h]

/-- A row set inactive stays inactive under setInactive. -/
lemma setInactive_preserves_inactive (s : List Category) (c d : String)
    (h : inactiveIn s d) : inactiveIn (setInactive s c) d := by
  intro row hrow hid
  unfold setInactive at hrow
  obtain ⟨row0, hrow0, rfl⟩ := List.mem_map.mp hrow
  by_cases hcase : (row0.id == c) = true
  · rw [if_pos hcase]
  · rw [if_neg hcase] at hid ⊢
    exact h row0 hrow0 hid

/-- setInactive makes its target id inactive. -/
lemma setInactive_self (s : List Category) (c : String) :
    inactiveIn (setInactive s c) c := by
  intro row hrow hid
  unfold setInactive at hrow
  obtain ⟨row0, hrow0, rfl⟩ := List.mem_map.mp hrow
  by_cases hcase : (row0.id == c) = true
  · rw [if_pos hcase]
  · rw [if_neg hcase] at hid
    exact absurd (beq_iff_eq.mpr hid) (by simp [hcase])

/-- rankOkB really bounds every parent step. -/
lemma rank_lt_of_parentOf (store : List Category) (rank : String → Nat)
    (hrkB : rankOkB rank store = true) {y x : String}
    (h : parentOf store y = some x) : rank y < rank x := by
  unfold parentOf at h
  cases hfind : get_category_by_id store y with
  | none => rw [hfind] at h; exact absurd h (by simp)
  | some row =>
    rw [hfind] at h
    have hpar : row.parent_id = some x := h
    have hrow_mem := List.mem_of_find?_eq_some hfind
    have hbeq := List.find?_some hfind
    have hrow_id : row.id = y := beq_iff_eq.mp hbeq
    rw [rankOkB, List.all_eq_true] at hrkB
    have hb := hrkB row hrow_mem
    rw [hpar] at hb
    exact hrow_id ▸ of_decide_eq_true hb

/-- Ranks are monotone along the descendant relation. -/
lemma desc_rank_le (store : List Category) (rank : String → Nat)
    (hrk : ∀ y x, parentOf store y = some x → rank y < rank x)
    {d r : String} (h : Desc store d r) : rank d ≤ rank r := by
  induction h with
  | refl => exact le_refl _
  | step hpar _ ih => exact le_of_lt (Nat.lt_of_lt_of_le (hrk _ _ hpar) ih)

/-- The descendant relation is transitive. -/
lemma desc_trans (store : List Category) {a b c : String}
    (h1 : Desc store a b) (h2 : Desc store b c) : Desc store a c := by
  induction h1 with
  | refl => exact h2
  | step hpar _ ih => exact Desc.step hpar (ih h2)

/-- Two ancestors of a common node are comparable: parent pointers are a
function, so the upward chain from any node is unique. -/
lemma desc_total_of_common (store : List Category) {a u v : String}
    (h1 : Desc store a u) (h2 : Desc store a v) :
    Desc store u v ∨ Desc store v u := by
  induction h1 generalizing v with
  | refl => exact Or.inl h2
  | step hpar hd ih =>
    cases h2 with
    | refl => exact Or.inr (Desc.step hpar hd)
    | step hpar2 hd2 =>
      have hz := Option.some.inj (hpar.symm.trans hpar2)
      exact ih (hz ▸ hd2)

/-- A node is never a strict descendant of a sibling (same parent pointer). -/
lemma sib_not_desc (store : List Category) (rank : String → Nat)
    (hrk : ∀ y x, parentOf store y = some x → rank y < rank x)
    {c r : String} {P : Option String}
    (hPc : parentOf store c = P) (hPr : parentOf store r = P)
    (hne : c ≠ r) : ¬ Desc store c r := by
  intro h
  cases h with
  | refl => exact hne rfl
  | step hpar hd =>
    have hPz : P = some _ := hPc.symm.trans hpar
    have h1 : rank r < _ := hrk _ _ (hPr.trans hPz)
    have h2 := desc_rank_le store rank hrk hd
    omega

/-- Subtrees of two distinct siblings are disjoint. -/
lemma siblings_disjoint (store : List Category) (rank : String → Nat)
    (hrk : ∀ y x, parentOf store y = some x → rank y < rank x)
    {c r b : String} {P : Option String}
    (hPc : parentOf store c = P) (hPr : parentOf store r = P) (hne : c ≠ r)
    (hbr : Desc store b r) (hbc : Desc store b c) : False := by
  rcases desc_total_of_common store hbc hbr with h | h
  · exact sib_not_desc store rank hrk hPc hPr hne h
  · exact sib_not_desc store rank hrk hPr hPc hne.symm h

/-- A row found in a duplicate-free store by its own id is that row. -/
lemma find_self_of_nodup (store : List Category)
    (hids : (store.map (fun c => c.id)).Nodup) (row : Category)
    (hrow : row ∈ store) : get_category_by_id store row.id = some row := by
  induction store with
  | nil => cases hrow
  | cons a l ih =>
    rcases List.mem_cons.mp hrow with rfl | hin
    · unfold get_category_by_id
      rw [List.find?_cons_of_pos _ (by simp)]
    · have hnd := List.nodup_cons.mp hids
      have hane : (a.id == row.id) = false := by
        rw [beq_eq_false_iff_ne]
        intro hcon
        exact hnd.1 (by
          show a.id ∈ List.map (fun c => c.id) l
          rw [hcon]
          exact List.mem_map_of_mem _ hin)
      unfold get_category_by_id
      rw [List.find?_cons_of_neg _ (by simp [hane])]
      exact ih hnd.2 hin

/-- With duplicate-free ids, membership in a child list gives the parent
pointer. -/
lemma parentOf_of_mem_childIds (store : List Category)
    (hids : (store.map (fun c => c.id)).Nodup) {y x : String}
    (h : y ∈ childIds store x) : parentOf store y = some x := by
  unfold childIds at h
  obtain ⟨row, hrowf, rfl⟩ := List.mem_map.mp h
  have hrow := List.mem_filter.mp hrowf
  unfold parentOf
  rw [find_self_of_nodup store hids row hrow.1]
  exact beq_iff_eq.mp hrow.2

/-- A parent pointer gives membership in the child list. -/
lemma mem_childIds_of_parentOf (store : List Category) {y x : String}
    (h : parentOf store y = some x) : y ∈ childIds store x := by
  unfold parentOf at h
  cases hfind : get_category_by_id store y with
  | none => rw [hfind] at h; exact absurd h (by simp)
  | some row =>
    rw [hfind] at h
    have hpar : row.parent_id = some x := h
    have hrow_mem := List.mem_of_find?_eq_some hfind
    have hbeq := List.find?_some hfind
    have hrow_id : row.id = y := beq_iff_eq.mp hbeq
    unfold childIds
    exact hrow_id ▸ List.mem_map_of_mem _ (List.mem_filter.mpr
      ⟨hrow_mem, beq_iff_eq.mpr hpar⟩)

/-- Child lists of a duplicate-free store are duplicate-free. -/
lemma childIds_nodup (store : List Category)
    (hids : (store.map (fun c => c.id)).Nodup) (x : String) :
    (childIds store x).Nodup := by
  unfold childIds
  exact List.Nodup.sublist
    (List.Sublist.map _ (List.filter_sublist store)) hids

/-- Every descendant is the root itself or sits below some child of the
root. -/
lemma desc_last_step (store : List Category) {d c : String}
    (h : Desc store d c) :
    d = c ∨ ∃ e, parentOf store e = some c ∧ Desc store d e := by
  induction h with
  | refl => exact Or.inl rfl
  | step hpar hd ih =>
    rcases ih with rfl | ⟨e, he, hde⟩
    · exact Or.inr ⟨_, hpar, Desc.refl _⟩
    · exact Or.inr ⟨e, he, Desc.step hpar hde⟩

/-- Inversion of deactivateForest at a cons work list with fuel left. -/
lemma deactivateForest_cons_succ (n : Nat) (s : List Category) (c : String)
    (cs : List String) (s2 : List Category) (tr : List String)
    (h : deactivateForest (n + 1) s (c :: cs) = some (s2, tr)) :
    ∃ s1 tr1 tr2, deactivateForest n s (childIds s c) = some (s1, tr1) ∧
      deactivateForest (n + 1) (setInactive s1 c) cs = some (s2, tr2) ∧
      tr = tr1 ++ c :: tr2 := by
  rw [deactivateForest] at h
  split at h
  · exact absurd h (by simp)
  next s1 tr1 heq1 =>
    split at h
    · exact absurd h (by simp)
    next s2x tr2 heq2 =>
      have e := Option.some.inj h
      rw [Prod.mk.injEq] at e
      exact ⟨s1, tr1, tr2, heq1, e.1 ▸ heq2, e.2.symm⟩

/-- deactivateForest does nothing on an empty work list. -/
lemma deactivateForest_nil (fuel : Nat) (s : List Category) :
    deactivateForest fuel s [] = some (s, []) := by
  rw [deactivateForest]

/-- deactivateForest runs out only with zero fuel on a nonempty list. -/
lemma deactivateForest_zero_cons (s : List Category) (c : String) (cs : List String) :
    deactivateForest 0 s (c :: cs) = none := by
  rw [deactivateForest]

/-- Deactivation only flips active flags: the id/parent structure of the
resulting store is that of the input. -/
lemma deactivateForest_shape :
    ∀ (fuel : Nat) (roots : List String) (s s2 : List Category) (tr : List String),
      deactivateForest fuel s roots = some (s2, tr) → shape s2 = shape s := by
  intro fuel
  induction fuel with
  | zero =>
    intro roots s s2 tr h
    cases roots with
    | nil =>
      rw [deactivateForest_nil] at h
      have e := Option.some.inj h
      rw [Prod.mk.injEq] at e
      rw [← e.1]
    | cons c cs =>
      rw [deactivateForest_zero_cons] at h
      exact absurd h (by simp)
  | succ n ih =>
    intro roots
    induction roots with
    | nil =>
      intro s s2 tr h
      rw [deactivateForest_nil] at h
      have e := Option.some.inj h
      rw [Prod.mk.injEq] at e
      rw [← e.1]
    | cons c cs ihc =>
      intro s s2 tr h
      obtain ⟨s1, tr1, tr2, h1, h2, rfl⟩ := deactivateForest_cons_succ n s c cs s2 tr h
      calc shape s2 = shape (setInactive s1 c) := ihc (setInactive s1 c) s2 tr2 h2
        _ = shape s1 := shape_setInactive s1 c
        _ = shape s := ih (childIds s c) s s1 tr1 h1

/-- A row that is already inactive stays inactive through deactivation. -/
lemma deactivateForest_preserves_inactive :
    ∀ (fuel : Nat) (roots : List String) (s s2 : List Category) (tr : List String),
      deactivateForest fuel s roots = some (s2, tr) →
      ∀ d, inactiveIn s d → inactiveIn s2 d := by
  intro fuel
  induction fuel with
  | zero =>
    intro roots s s2 tr h d hin
    cases roots with
    | nil =>
      rw [deactivateForest_nil] at h
      have e := Option.some.inj h
      rw [Prod.mk.injEq] at e
      rw [← e.1]
      exact hin
    | cons c cs =>
      rw [deactivateForest_zero_cons] at h
      exact absurd h (by simp)
  | succ n ih =>
    intro roots
    induction roots with
    | nil =>
      intro s s2 tr h d hin
      rw [deactivateForest_nil] at h
      have e := Option.some.inj h
      rw [Prod.mk.injEq] at e
      rw [← e.1]
      exact hin
    | cons c cs ihc =>
      intro s s2 tr h d hin
      obtain ⟨s1, tr1, tr2, h1, h2, rfl⟩ := deactivateForest_cons_succ n s c cs s2 tr h
      exact ihc (setInactive s1 c) s2 tr2 h2 d
        (setInactive_preserves_inactive s1 c d (ih (childIds s c) s s1 tr1 h1 d hin))

/-- Every id in the deactivation trace is a descendant of one of the roots
(descendants taken in the ambient store, whose shape the working store
keeps). -/
lemma deactivateForest_trace_desc (store : List Category)
    (hids : (store.map (fun c => c.id)).Nodup) :
    ∀ (fuel : Nat) (roots : List String) (s s2 : List Category) (tr : List String),
      shape s = shape store →
      deactivateForest fuel s roots = some (s2, tr) →
      ∀ x ∈ tr, ∃ r ∈ roots, Desc store x r := by
  intro fuel
  induction fuel with
  | zero =>
    intro roots s s2 tr hsh h x hx
    cases roots with
    | nil =>
      rw [deactivateForest_nil] at h
      have e := Option.some.inj h
      rw [Prod.mk.injEq] at e
      rw [← e.2] at hx
      exact absurd hx (List.not_mem_nil x)
    | cons c cs =>
      rw [deactivateForest_zero_cons] at h
      exact absurd h (by simp)
  | succ n ih =>
    intro roots
    induction roots with
    | nil =>
      intro s s2 tr hsh h x hx
      rw [deactivateForest_nil] at h
      have e := Option.some.inj h
      rw [Prod.mk.injEq] at e
      rw [← e.2] at hx
      exact absurd hx (List.not_mem_nil x)
    | cons c cs ihc =>
      intro s s2 tr hsh h x hx
      obtain ⟨s1, tr1, tr2, h1, h2, rfl⟩ := deactivateForest_cons_succ n s c cs s2 tr h
      rw [childIds_congr hsh c] at h1
      have hsh1 : shape (setInactive s1 c) = shape store := by
        rw [shape_setInactive]
        exact (deactivateForest_shape n _ s s1 tr1 h1).trans hsh
      rcases List.mem_append.mp hx with hx1 | hx2
      · obtain ⟨r0, hr0, hd⟩ := ih (childIds store c) s s1 tr1 hsh h1 x hx1
        exact ⟨c, List.mem_cons_self c cs,
          desc_trans store hd
            (Desc.step (parentOf_of_mem_childIds store hids hr0) (Desc.refl c))⟩
      · rcases List.mem_cons.mp hx2 with rfl | hx3
        · exact ⟨x, List.mem_cons_self x cs, Desc.refl x⟩
        · obtain ⟨r0, hr0, hd⟩ := ihc (setInactive s1 c) s2 tr2 hsh1 h2 x hx3
          exact ⟨r0, List.mem_cons_of_mem c hr0, hd⟩

/-- After deactivating a work list, every descendant of every root is
inactive. -/
lemma deactivateForest_deactivates (store : List Category)
    (_hids : (store.map (fun c => c.id)).Nodup) :
    ∀ (fuel : Nat) (roots : List String) (s s2 : List Category) (tr : List String),
      shape s = shape store →
      deactivateForest fuel s roots = some (s2, tr) →
      ∀ r ∈ roots, ∀ d, Desc store d r → inactiveIn s2 d := by
  intro fuel
  induction fuel with
  | zero =>
    intro roots s s2 tr hsh h r hr d hd
    cases roots with
    | nil => exact absurd hr (List.not_mem_nil r)
    | cons c cs =>
      rw [deactivateForest_zero_cons] at h
      exact absurd h (by simp)
  | succ n ih =>
    intro roots
    induction roots with
    | nil =>
      intro s s2 tr hsh h r hr d hd
      exact absurd hr (List.not_mem_nil r)
    | cons c cs ihc =>
      intro s s2 tr hsh h r hr d hd
      obtain ⟨s1, tr1, tr2, h1, h2, rfl⟩ := deactivateForest_cons_succ n s c cs s2 tr h
      rw [childIds_congr hsh c] at h1
      have hsh1 : shape (setInactive s1 c) = shape store := by
        rw [shape_setInactive]
        exact (deactivateForest_shape n _ s s1 tr1 h1).trans hsh
      rcases List.mem_cons.mp hr with hrc | hrcs
      · rw [hrc] at hd
        rcases desc_last_step store hd with hdc | ⟨e, he, hde⟩
        · rw [hdc]
          exact deactivateForest_preserves_inactive (n + 1) cs (setInactive s1 c) s2 tr2
            h2 c (setInactive_self s1 c)
        · have hech : e ∈ childIds store c := mem_childIds_of_parentOf store he
          have hin1 : inactiveIn s1 d :=
            ih (childIds store c) s s1 tr1 hsh h1 e hech d hde
          exact deactivateForest_preserves_inactive (n + 1) cs (setInactive s1 c) s2 tr2
            h2 d (setInactive_preserves_inactive s1 c d hin1)
      · exact ihc (setInactive s1 c) s2 tr2 hsh1 h2 r hrcs d hd

/-- With an acyclicity rank, deactivation of a work list of rank below the
fuel always completes. -/
lemma deactivateForest_isSome (store : List Category) (rank : String → Nat)
    (hids : (store.map (fun c => c.id)).Nodup)
    (hrk : ∀ y x, parentOf store y = some x → rank y < rank x) :
    ∀ (fuel : Nat) (roots : List String) (s : List Category),
      shape s = shape store → (∀ r ∈ roots, rank r < fuel) →
      (deactivateForest fuel s roots).isSome := by
  intro fuel
  induction fuel with
  | zero =>
    intro roots s hsh hb
    cases roots with
    | nil => rw [deactivateForest_nil]; rfl
    | cons c cs => exact absurd (hb c (List.mem_cons_self c cs)) (Nat.not_lt_zero _)
  | succ n ih =>
    intro roots
    induction roots with
    | nil =>
      intro s hsh hb
      rw [deactivateForest_nil]
      rfl
    | cons c cs ihc =>
      intro s hsh hb
      have hb1 : ∀ y ∈ childIds store c, rank y < n := by
        intro y hy
        have hy1 := hrk y c (parentOf_of_mem_childIds store hids hy)
        have hy2 := hb c (List.mem_cons_self c cs)
        omega
      obtain ⟨⟨s1, tr1⟩, h1⟩ :=
        Option.isSome_iff_exists.mp (ih (childIds store c) s hsh hb1)
      have hsh1 : shape (setInactive s1 c) = shape store := by
        rw [shape_setInactive]
        exact (deactivateForest_shape n _ s s1 tr1 h1).trans hsh
      obtain ⟨⟨s2, tr2⟩, h2⟩ :=
        Option.isSome_iff_exists.mp
          (ihc (setInactive s1 c) hsh1 (fun r hr => hb r (List.mem_cons_of_mem c hr)))
      rw [deactivateForest, childIds_congr hsh c, h1]
      simp [h2]

/-- The deactivation trace is in post-order: a parent's UPDATE never runs
before one of its children's. -/
lemma deactivateForest_pairwise (store : List Category) (rank : String → Nat)
    (hids : (store.map (fun c => c.id)).Nodup)
    (hrk : ∀ y x, parentOf store y = some x → rank y < rank x) :
    ∀ (fuel : Nat) (roots : List String) (s s2 : List Category) (tr : List String)
      (P : Option String),
      shape s = shape store →
      (∀ r ∈ roots, parentOf store r = P) →
      roots.Nodup →
      deactivateForest fuel s roots = some (s2, tr) →
      tr.Pairwise (fun a b => parentOf store b ≠ some a) := by
  intro fuel
  induction fuel with
  | zero =>
    intro roots s s2 tr P hsh hsib hnd h
    cases roots with
    | nil =>
      rw [deactivateForest_nil] at h
      have e := Option.some.inj h
      rw [Prod.mk.injEq] at e
      rw [← e.2]
      exact List.Pairwise.nil
    | cons c cs =>
      rw [deactivateForest_zero_cons] at h
      exact absurd h (by simp)
  | succ n ih =>
    intro roots
    induction roots with
    | nil =>
      intro s s2 tr P hsh hsib hnd h
      rw [deactivateForest_nil] at h
      have e := Option.some.inj h
      rw [Prod.mk.injEq] at e
      rw [← e.2]
      exact List.Pairwise.nil
    | cons c cs ihc =>
      intro s s2 tr P hsh hsib hnd h
      obtain ⟨s1, tr1, tr2, h1, h2, rfl⟩ := deactivateForest_cons_succ n s c cs s2 tr h
      rw [childIds_congr hsh c] at h1
      have hsh1 : shape (setInactive s1 c) = shape store := by
        rw [shape_setInactive]
        exact (deactivateForest_shape n _ s s1 tr1 h1).trans hsh
      have hPc : parentOf store c = P := hsib c (List.mem_cons_self c cs)
      have hsibch : ∀ r ∈ childIds store c, parentOf store r = some c :=
        fun r hr => parentOf_of_mem_childIds store hids hr
      have hnodcs := List.nodup_cons.mp hnd
      have hP1 := ih (childIds store c) s s1 tr1 (some c) hsh hsibch
        (childIds_nodup store hids c) h1
      have hP2 := ihc (setInactive s1 c) s2 tr2 P hsh1
        (fun r hr => hsib r (List.mem_cons_of_mem c hr)) hnodcs.2 h2
      have htd1 := deactivateForest_trace_desc store hids n (childIds store c) s s1 tr1 hsh h1
      have htd2 := deactivateForest_trace_desc store hids (n + 1) cs
        (setInactive s1 c) s2 tr2 hsh1 h2
      have hdesc1 : ∀ a ∈ tr1, Desc store a c := by
        intro a ha
        obtain ⟨r0, hr0, hd⟩ := htd1 a ha
        exact desc_trans store hd (Desc.step (hsibch r0 hr0) (Desc.refl c))
      rw [List.pairwise_append]
      refine ⟨hP1, ?_, ?_⟩
      · rw [List.pairwise_cons]
        refine ⟨?_, hP2⟩
        intro b hb hcon
        obtain ⟨rb, hrb, hdb⟩ := htd2 b hb
        have hbc : Desc store b c := Desc.step hcon (Desc.refl c)
        have hnecr : c ≠ rb := fun hcr => hnodcs.1 (hcr ▸ hrb)
        exact siblings_disjoint store rank hrk hPc
          (hsib rb (List.mem_cons_of_mem c hrb)) hnecr hdb hbc
      · intro a ha b hb
        have hac : Desc store a c := hdesc1 a ha
        rcases List.mem_cons.mp hb with rfl | hb2
        · intro hcon
          have hlt := hrk b a hcon
          have hle := desc_rank_le store rank hrk hac
          omega
        · intro hcon
          obtain ⟨rb, hrb, hdb⟩ := htd2 b hb2
          have hbc : Desc store b c :=
            desc_trans store (Desc.step hcon (Desc.refl a)) hac
          have hnecr : c ≠ rb := fun hcr => hnodcs.1 (hcr ▸ hrb)
          exact siblings_disjoint store rank hrk hPc
            (hsib rb (List.mem_cons_of_mem c hrb)) hnecr hdb hbc

/-! ## C6 -/

/-- C6: in a store with unique ids whose parent pointers admit a strictly
decreasing rank (the acyclic-forest assumption), force-deleting a category c
succeeds and (i) deactivates c and every descendant of c — none remains
active afterward — and (ii) issues the deactivation UPDATEs in post-order:
no category is deactivated before any of its children, and c itself comes
last. -/
theorem category_force_delete_deactivates_subtree
    (store : List Category) (rank : String → Nat) (c : String) (cat : Category)
    (hids : (store.map (fun cc => cc.id)).Nodup)
    (hrkB : rankOkB rank store = true)
    (hc : get_category_by_id store c = some cat) :
    ∃ s2 tr, delete_category (rank c + 1) store c true = some (true, s2, tr) ∧
      (∀ d, Desc store d c → inactiveIn s2 d) ∧
      List.Pairwise (fun a b => parentOf store b ≠ some a) tr ∧
      tr.getLast? = some c := by
  have hrk : ∀ y x, parentOf store y = some x → rank y < rank x :=
    fun y x h => rank_lt_of_parentOf store rank hrkB h
  have hb : ∀ r ∈ [c], rank r < rank c + 1 := by
    intro r hr
    rw [List.mem_singleton] at hr
    rw [hr]
    exact Nat.lt_succ_self _
  obtain ⟨⟨s1, tr1⟩, h1⟩ :=
    Option.isSome_iff_exists.mp
      (deactivateForest_isSome store rank hids hrk (rank c + 1) [c] store rfl hb)
  have hdel : delete_category (rank c + 1) store c true =
      some (true, setInactive s1 c, tr1 ++ [c]) := by
    rw [delete_category, hc, if_pos rfl, h1]
  refine ⟨setInactive s1 c, tr1 ++ [c], hdel, ?_, ?_, List.getLast?_concat _⟩
  · intro d hd
    have hin1 := deactivateForest_deactivates store hids (rank c + 1) [c] store s1 tr1
      rfl h1 c (List.mem_singleton_self c) d hd
    exact setInactive_preserves_inactive s1 c d hin1
  · rw [List.pairwise_append]
    refine ⟨deactivateForest_pairwise store rank hids hrk (rank c + 1) [c] store s1 tr1
      (parentOf store c) rfl (by intro r hr; rw [List.mem_singleton] at hr; rw [hr])
      (List.nodup_singleton c) h1, List.pairwise_singleton _ _, ?_⟩
    intro a ha b hb2
    rw [List.mem_singleton] at hb2
    obtain ⟨r0, hr0, hd⟩ := deactivateForest_trace_desc store hids (rank c + 1) [c]
      store s1 tr1 rfl h1 a ha
    rw [List.mem_singleton] at hr0
    rw [hr0] at hd
    intro hcon
    rw [hb2] at hcon
    have hlt := hrk c a hcon
    have hle := desc_rank_le store rank hrk hd
    omega

/-- Concrete run of category_force_delete_deactivates_subtree on the chain
A → B → C with the witnessing rank exRank. -/
theorem category_force_delete_deactivates_subtree_witness :
    (exStore.map (fun cc => cc.id)).Nodup ∧
    rankOkB exRank exStore = true ∧
    get_category_by_id exStore "A" = some exCatA ∧
    ∃ s2 tr, delete_category (exRank "A" + 1) exStore "A" true = some (true, s2, tr) ∧
      (∀ d, Desc exStore d "A" → inactiveIn s2 d) ∧
      List.Pairwise (fun a b => parentOf exStore b ≠ some a) tr ∧
      tr.getLast? = some "A" :=
  ⟨by decide, by decide, rfl,
    category_force_delete_deactivates_subtree exStore exRank "A" exCatA
      (by decide) (by decide) rfl⟩

end Procurement
